import Mathlib

/-!
Shallow embedding of the AST-based style-checker core of this repository
(`assignment2/functional_style_checker.py` and
`assignment1/custom_style_checker.py`) together with proofs about the
claims of its specification.

The Python `ast` node shapes are modelled by the inductive `Node` below:
only the node kinds and attributes the checkers inspect are represented
(`Import` alias names, `ImportFrom.module`, `ClassDef.name`/body,
`FunctionDef.name`/`args`/`returns`/body, the leading string-literal
expression statement used as a docstring, and a generic statement node
carrying children).  Character-level string operations (`str.lower`,
`str.isupper`, `str.islower`) are modelled at the ASCII level of
`Char.toLower` / `Char.isUpper` / `Char.isLower`, which is exact on the
ASCII identifiers the checkers are applied to.
-/

/-- One formal parameter of a `FunctionDef`: its name and optional type
annotation (`arg.annotation` in the Python AST; `none` models Python `None`).
The type expression itself is irrelevant to the checkers, so it is kept as a
string. -/
structure Arg where
  name : String
  annot : Option String
deriving DecidableEq, Repr

/-- The `arguments` node of a `FunctionDef`: `args` are the ordinary
positional parameters (`fn.args.args` in Python), `vararg` models a `*args`
catch-all and `kwarg` a `**kwargs` catch-all (both `None` when absent). -/
structure Arguments where
  args : List Arg
  vararg : Option Arg
  kwarg : Option Arg
deriving DecidableEq, Repr

/-- The AST node kinds the style checkers distinguish. -/
inductive Node where
  /-- `ast.Module` (or any other container the walk descends into at the
  top): holds its body statements. -/
  | module (body : List Node)
  /-- `ast.Import` with the names of its aliases (`alias.name`). -/
  | importStmt (names : List String)
  /-- `ast.ImportFrom`: `module` is `None` for a relative import such as
  `from . import x`; `names` are the imported member names. -/
  | importFrom (module : Option String) (names : List String)
  /-- `ast.ClassDef` with its name and body. -/
  | classDef (name : String) (body : List Node)
  /-- `ast.FunctionDef` with name, arguments, optional return annotation
  (`fn.returns`), and body. -/
  | functionDef (name : String) (args : Arguments) (returns : Option String)
      (body : List Node)
  /-- An expression statement whose value is a string constant — the shape
  `ast.get_docstring` looks for as the first body statement. -/
  | exprStr (s : String)
  /-- Any other statement, with its child nodes. -/
  | otherStmt (children : List Node)
deriving Repr

namespace Checker

/-- `ast.iter_child_nodes`: the direct children of a node (restricted to the
child positions the checkers can ever match on). -/
def iter_child_nodes : Node → List Node
  | .module body => body
  | .importStmt _ => []
  | .importFrom _ _ => []
  | .classDef _ body => body
  | .functionDef _ _ _ body => body
  | .exprStr _ => []
  | .otherStmt cs => cs

mutual
/-- Size of a node: itself plus all descendants. -/
def sizeNode : Node → Nat
  | .module body => 1 + sizeList body
  | .importStmt _ => 1
  | .importFrom _ _ => 1
  | .classDef _ body => 1 + sizeList body
  | .functionDef _ _ _ body => 1 + sizeList body
  | .exprStr _ => 1
  | .otherStmt cs => 1 + sizeList cs

/-- Total size of a list of nodes. -/
def sizeList : List Node → Nat
  | [] => 0
  | n :: ns => sizeNode n + sizeList ns
end

theorem sizeList_append (a b : List Node) :
    sizeList (a ++ b) = sizeList a + sizeList b := by
  induction a with
  | nil => simp [sizeList]
  | cons n ns ih => simp [sizeList, ih]; omega

theorem sizeNode_eq (n : Node) :
    sizeNode n = 1 + sizeList (iter_child_nodes n) := by
  cases n <;> rfl

/-- Breadth-first traversal of a work list, with explicit fuel so that the
recursion is structural (and hence computes by `decide`/`rfl`).  One unit of
fuel is spent per visited node, and `sizeList todo` is exactly the number of
nodes that remain to be visited, so `walkFrom` below never runs out. -/
def walkFromAux : Nat → List Node → List Node
  | _, [] => []
  | 0, _ :: _ => []
  | fuel + 1, n :: rest => n :: walkFromAux fuel (rest ++ iter_child_nodes n)

/-- `ast.walk` on a work list: `ast.walk` pops a node from the front of a
deque, yields it, and appends its children at the back. -/
def walkFrom (todo : List Node) : List Node :=
  walkFromAux (sizeList todo) todo

theorem walkFrom_nil : walkFrom [] = [] := rfl

theorem walkFrom_cons (n : Node) (rest : List Node) :
    walkFrom (n :: rest) = n :: walkFrom (rest ++ iter_child_nodes n) := by
  have h1 : sizeList (n :: rest) =
      sizeList (rest ++ iter_child_nodes n) + 1 := by
    simp only [sizeList, sizeList_append]
    have h := sizeNode_eq n
    omega
  unfold walkFrom
  rw [h1]
  rfl

/-- `ast.walk tree`: all nodes of the tree, root first, in breadth-first
order. -/
def walk (t : Node) : List Node := walkFrom [t]

/-! ### Decidable equality of nodes

`deriving DecidableEq` does not handle the nested `List Node` occurrences,
so equality is decided by an explicit boolean comparison, proved correct by
induction on node size. -/

mutual
/-- Boolean structural equality of nodes. -/
def beqNode : Node → Node → Bool
  | .module b1, .module b2 => beqListNode b1 b2
  | .importStmt n1, .importStmt n2 => n1 == n2
  | .importFrom m1 ns1, .importFrom m2 ns2 => m1 == m2 && ns1 == ns2
  | .classDef n1 b1, .classDef n2 b2 => n1 == n2 && beqListNode b1 b2
  | .functionDef n1 a1 r1 b1, .functionDef n2 a2 r2 b2 =>
      n1 == n2 && a1 == a2 && r1 == r2 && beqListNode b1 b2
  | .exprStr s1, .exprStr s2 => s1 == s2
  | .otherStmt c1, .otherStmt c2 => beqListNode c1 c2
  | _, _ => false

/-- Boolean structural equality of node lists. -/
def beqListNode : List Node → List Node → Bool
  | [], [] => true
  | a :: as, b :: bs => beqNode a b && beqListNode as bs
  | _, _ => false
end

theorem sizeNode_pos (n : Node) : 1 ≤ sizeNode n := by
  cases n <;> simp [sizeNode]

theorem beqListNode_iff_aux :
    ∀ k, ∀ as bs : List Node, sizeList as ≤ k →
      (beqListNode as bs = true ↔ as = bs) := by
  intro k
  induction k with
  | zero =>
    intro as bs h
    match as, bs with
    | [], [] => simp [beqListNode]
    | [], b :: bs => simp [beqListNode]
    | a :: as, _ =>
      exfalso
      have := sizeNode_pos a
      simp [sizeList] at h
      omega
  | succ k ih =>
    have node_iff : ∀ a b : Node, sizeNode a ≤ k + 1 →
        (beqNode a b = true ↔ a = b) := by
      intro a b ha
      have hch : ∀ (body : List Node), sizeNode a = 1 + sizeList body →
          sizeList body ≤ k := by intro body he; omega
      cases a <;> cases b
      case module.module b1 b2 =>
        simp [beqNode, ih b1 b2 (hch b1 (by simp [sizeNode]))]
      case classDef.classDef n1 b1 n2 b2 =>
        simp [beqNode, ih b1 b2 (hch b1 (by simp [sizeNode]))]
      case functionDef.functionDef n1 a1 r1 b1 n2 a2 r2 b2 =>
        simp only [beqNode, Bool.and_eq_true, beq_iff_eq,
          ih b1 b2 (hch b1 (by simp [sizeNode])), Node.functionDef.injEq]
        tauto
      case otherStmt.otherStmt c1 c2 =>
        simp [beqNode, ih c1 c2 (hch c1 (by simp [sizeNode]))]
      all_goals simp [beqNode]
    intro as bs h
    match as, bs with
    | [], [] => simp [beqListNode]
    | [], b :: bs => simp [beqListNode]
    | a :: as, [] => simp [beqListNode]
    | a :: as, b :: bs =>
      have h1 : sizeNode a ≤ k + 1 := by
        simp [sizeList] at h; have := sizeNode_pos a; omega
      have h2 : sizeList as ≤ k := by
        simp [sizeList] at h; have := sizeNode_pos a; omega
      simp only [beqListNode, Bool.and_eq_true]
      rw [node_iff a b h1, ih as bs h2]
      simp

theorem beqNode_iff (a b : Node) : beqNode a b = true ↔ a = b := by
  have h := beqListNode_iff_aux (sizeList [a]) [a] [b] le_rfl
  simpa [beqListNode] using h

instance : DecidableEq Node := fun a b => decidable_of_iff _ (beqNode_iff a b)

/-! ### Parent map (`build_parent_map` / `attach_parents`)

Python's `build_parent_map` builds a dict by a comprehension over
`ast.walk`, recording each child of each visited node, and then overrides
the root entry with `| {tree: None}`.  A Python dict keeps the *last*
binding written for a key, so lookup is modelled as first-match lookup on
the reversed association list. -/

/-- The association-list of bindings written by `build_parent_map`, in the
order Python writes them: `child ↦ parent` for every visited parent, then
`tree ↦ None`. -/
def parentPairs (t : Node) : List (Node × Option Node) :=
  ((walk t).flatMap fun p => (iter_child_nodes p).map fun c => (c, some p)) ++
    [(t, none)]

/-- First-match association-list lookup (used on the reversed binding list
to model Python dict / attribute-write semantics, where the last write
wins). -/
def dictLookup {β : Type} : List (Node × β) → Node → Option β
  | [], _ => none
  | (k, v) :: rest, n => if k = n then some v else dictLookup rest n

/-- `build_parent_map tree` as a partial lookup: `none` when the node is not
a key of the dict, `some p` when it is bound to `p` (where `p = none` is the
root's `None` sentinel). -/
def build_parent_map (t : Node) (n : Node) : Option (Option Node) :=
  dictLookup (parentPairs t).reverse n

/-- `parents.get(node)` — Python's `Mapping.get` returns `None` both for a
missing key and for the root's `None` value, so the two collapse here. -/
def getParent (t : Node) (n : Node) : Option Node :=
  match build_parent_map t n with
  | some v => v
  | none => none

/-- `is_method(node, parents)`: the parent retrieved by `parents.get` is a
`ClassDef`.  The `parents` argument is the `.get` view of the mapping. -/
def is_method (n : Node) (parents : Node → Option Node) : Bool :=
  match parents n with
  | some (.classDef _ _) => true
  | _ => false

/-! ### String helpers

Python's `str.lower`, `str.isupper`, `str.islower` are modelled at the
ASCII level by `Char.toLower`, `Char.isUpper`, `Char.isLower`. -/

/-- `name.lower()`: lowercase every character. -/
def py_str_lower (s : String) : String := ⟨s.data.map Char.toLower⟩

/-- `node.name` for the nodes that carry a name (`ClassDef`,
`FunctionDef`).  Other kinds have no `name` attribute in Python (access
would raise), and are never asked for one by the checkers; they map to the
empty string here. -/
def nodeName : Node → String
  | .classDef name _ => name
  | .functionDef name _ _ _ => name
  | _ => ""

/-- `_violates_camel(name)`:
`not (name and name[0].isupper() and "_" not in name)`.
An empty string is falsy in Python, hence the `!name.isEmpty` conjunct. -/
def _violates_camel (name : String) : Bool :=
  !(!name.isEmpty &&
    (match name.data with
     | c :: _ => c.isUpper
     | [] => false) &&
    !(name.data.contains '_'))

/-- `_violates_snake(name)`:
`name != name.lower() or any(c.isupper() for c in name if c != '_')`. -/
def _violates_snake (name : String) : Bool :=
  (name != py_str_lower name) ||
    name.data.any fun c => decide (c ≠ '_') && c.isUpper

/-! ### Docstrings -/

/-- `ast.get_docstring(node)`: the string of a leading string-literal
expression statement of a class/function/module body, `None` otherwise.
(The whitespace clean-up `ast.get_docstring` applies via `inspect.cleandoc`
is irrelevant to every claim and is not modelled.) -/
def get_docstring : Node → Option String
  | .module body | .classDef _ body | .functionDef _ _ _ body =>
    match body with
    | .exprStr s :: _ => some s
    | _ => none
  | _ => none

/-- Whether a node is a `ClassDef` or a `FunctionDef` — the
`isinstance(n, (ast.ClassDef, ast.FunctionDef))` test. -/
def isDefNode : Node → Bool
  | .classDef _ _ => true
  | .functionDef _ _ _ _ => true
  | _ => false

/-- Whether a node is a `FunctionDef`. -/
def isFunctionDef : Node → Bool
  | .functionDef _ _ _ _ => true
  | _ => false

/-- The name computed by the local `fmt` of `docstring_entries`: functions
whose parent is a class are shown as `f"{parents[node].name}.{node.name}"`,
every other node by its bare name. -/
def qualifiedDocName (parents : Node → Option Node) (n : Node) : String :=
  if isFunctionDef n && is_method n parents then
    (match parents n with
     | some p => nodeName p
     | none => "") ++ "." ++ nodeName n
  else nodeName n

/-- The local `fmt` of `docstring_entries`: qualified name paired with the
docstring, or the explicit absence marker.  `f"{name}: {doc}" if doc else
...` tests Python truthiness, so an *empty* docstring also yields the
marker. -/
def fmtEntry (parents : Node → Option Node) (n : Node) : String :=
  match get_docstring n with
  | some doc => if doc ≠ "" then qualifiedDocName parents n ++ ": " ++ doc
      else qualifiedDocName parents n ++ ": DocString not found."
  | none => qualifiedDocName parents n ++ ": DocString not found."

/-- `docstring_entries(tree, parents)`: one formatted line per
class/function node, in `ast.walk` (breadth-first) order. -/
def docstring_entries (t : Node) (parents : Node → Option Node) :
    List String :=
  ((walk t).filter isDefNode).map (fmtEntry parents)

/-! ### Annotation auditor -/

/-- The local `incomplete` of `missing_type_annotations`:
`any(arg.annotation is None for arg in fn.args.args) or fn.returns is None`.
Only the ordinary positional parameters `fn.args.args` are examined; the
`vararg`/`kwarg` fields are not consulted. -/
def incomplete (args : Arguments) (returns : Option String) : Bool :=
  (args.args.any fun a => a.annot.isNone) || returns.isNone

/-- The qualified name used for a function node by the annotation and
naming auditors: `f"{parents[n].name}.{n.name}"` when `is_method`, else the
bare name. -/
def qualNameOf (parents : Node → Option Node) (n : Node) : String :=
  if is_method n parents then
    (match parents n with
     | some p => nodeName p
     | none => "") ++ "." ++ nodeName n
  else nodeName n

/-- Python's `<` on single characters: code-point comparison. -/
def charLtB (a b : Char) : Bool := a.toNat < b.toNat

/-- Python's `<=` on strings: lexicographic comparison by code point. -/
def lexLe : List Char → List Char → Bool
  | [], _ => true
  | _ :: _, [] => false
  | a :: as, b :: bs =>
    if charLtB a b then true
    else if charLtB b a then false
    else lexLe as bs

/-- `a <= b` for Python strings. -/
def pyStrLe (a b : String) : Bool := lexLe a.data b.data

/-- The ordering relation used by Python's `sorted` on strings. -/
def strOrd (a b : String) : Prop := pyStrLe a b = true

instance : DecidableRel strOrd := fun _ _ => decEq _ _

/-- Python's `sorted` on a list of strings.  A sorted arrangement of a list
under a total antisymmetric order is unique, so the choice of sorting
algorithm is irrelevant; insertion sort is used because it is structurally
recursive and therefore computes. -/
def pySorted (l : List String) : List String :=
  l.insertionSort strOrd

/-- `missing_type_annotations(tree, parents)`: the qualified names of all
incomplete function nodes, sorted (`sorted(...)` over a generator, so no
deduplication). -/
def missing_type_annotations (t : Node) (parents : Node → Option Node) :
    List String :=
  pySorted <| (walk t).filterMap fun n =>
    match n with
    | .functionDef name args ret body =>
        if incomplete args ret then
          some (qualNameOf parents (.functionDef name args ret body))
        else none
    | _ => none

/-! ### Structural inventory -/

/-- `sorted({...})` in Python: the deduplicated set of names, listed in
lexicographic order (the unique ascending arrangement of the distinct
elements). -/
def sortedStringSet (l : List String) : List String :=
  pySorted l.dedup

/-- The names contributed to the imported set: every `alias.name` of every
`Import`, and the module of every `ImportFrom` whose `module` is truthy
(not `None` and not empty). -/
def importNameList (t : Node) : List String :=
  ((walk t).flatMap fun n =>
    match n with
    | .importStmt names => names
    | _ => []) ++
  ((walk t).filterMap fun n =>
    match n with
    | .importFrom (some m) _ => if m ≠ "" then some m else none
    | _ => none)

/-- `packages_imported(tree)`. -/
def packages_imported (t : Node) : List String :=
  sortedStringSet (importNameList t)

/-- All `ClassDef` names in walk order (with duplicates). -/
def classNameList (t : Node) : List String :=
  (walk t).filterMap fun n =>
    match n with
    | .classDef name _ => some name
    | _ => none

/-- `classes_defined(tree)`. -/
def classes_defined (t : Node) : List String :=
  sortedStringSet (classNameList t)

/-- Names of non-method `FunctionDef`s in walk order (with duplicates). -/
def functionNameList (t : Node) (parents : Node → Option Node) :
    List String :=
  (walk t).filterMap fun n =>
    match n with
    | .functionDef name args ret body =>
        if !is_method (.functionDef name args ret body) parents then some name
        else none
    | _ => none

/-- `functions_defined(tree, parents)`. -/
def functions_defined (t : Node) (parents : Node → Option Node) :
    List String :=
  sortedStringSet (functionNameList t parents)

/-! ### Naming auditor -/

/-- Class names flagged by `_violates_camel`, in walk order. -/
def badClassList (t : Node) : List String :=
  (walk t).filterMap fun n =>
    match n with
    | .classDef name _ => if _violates_camel name then some name else none
    | _ => none

/-- Qualified function names flagged by `_violates_snake`, in walk order. -/
def badFuncList (t : Node) (parents : Node → Option Node) : List String :=
  (walk t).filterMap fun n =>
    match n with
    | .functionDef name args ret body =>
        if _violates_snake name then
          some (qualNameOf parents (.functionDef name args ret body))
        else none
    | _ => none

/-- `naming_violations(tree, parents)`: the sorted deduplicated class and
function violation sets. -/
def naming_violations (t : Node) (parents : Node → Option Node) :
    List String × List String :=
  (sortedStringSet (badClassList t), sortedStringSet (badFuncList t parents))

/-! ### Report renderer -/

/-- The `lines` list assembled by `render_report` (the path is modelled by
its display name `path.name`). -/
def render_lines (fname : String) (total : Nat)
    (packages classes functions docstrings missing_ann bad_classes
      bad_funcs : List String) : List String :=
  ["File analysed: " ++ fname,
   "Total number of lines of code: " ++ toString total,
   "",
   "File Structure",
   "Packages imported: " ++
     (if !packages.isEmpty then String.intercalate ", " packages else "None"),
   "Classes defined: " ++
     (if !classes.isEmpty then String.intercalate ", " classes else "None"),
   "Functions defined: " ++
     (if !functions.isEmpty then String.intercalate ", " functions
      else "None")] ++
  [""] ++
  ["DocStrings"] ++
  docstrings ++
  [""] ++
  ["Type Annotation Check",
   if missing_ann.isEmpty then
     "All functions and methods use type annotations."
   else "Missing type annotations:" ++ "\n" ++
     String.intercalate "\n" missing_ann] ++
  [""] ++
  ["Naming Convention Check",
   if bad_classes.isEmpty && bad_funcs.isEmpty then
     "All names adhere to the specified conventions."
   else
     String.intercalate "\n"
       ((if !bad_classes.isEmpty then
           ["Classes not using CamelCase: " ++
             String.intercalate ", " bad_classes]
         else []) ++
        (if !bad_funcs.isEmpty then
           ["Functions/methods not using snake_case: " ++
             String.intercalate ", " bad_funcs]
         else []))]

/-- `render_report(...)`: `"\n".join(lines)`. -/
def render_report (fname : String) (total : Nat)
    (packages classes functions docstrings missing_ann bad_classes
      bad_funcs : List String) : String :=
  String.intercalate "\n"
    (render_lines fname total packages classes functions docstrings
      missing_ann bad_classes bad_funcs)

end Checker

/-! ## Assignment 1 (`custom_style_checker.py`)

The `StyleChecker` methods mutate `self.report`; each is modelled by the
pure list of lines it appends.  `attach_parents` mutates `child.parent`
attributes; it is modelled by the association list of attribute writes, in
write order (a later write to the same attribute wins). -/

namespace A1

open Checker

/-- The `child.parent = node` writes performed by `attach_parents(tree)`,
in the order they are executed. -/
def attachPairs (t : Node) : List (Node × Node) :=
  (walk t).flatMap fun p => (iter_child_nodes p).map fun c => (c, p)

/-- The `parent` attribute of `n` after `attach_parents(t)`: the last write
wins; `none` models the attribute never having been set. -/
def parentAttr (t : Node) (n : Node) : Option Node :=
  dictLookup (attachPairs t).reverse n

/-- The packages list of `_check_structure`: `alias.name` for every
`Import` alias and `node.module` for every `ImportFrom` — appended
unconditionally, so a relative import contributes Python `None` (modelled
as `none`).  Walk order, duplicates kept. -/
def a1_packages (t : Node) : List (Option String) :=
  (walk t).flatMap fun n =>
    match n with
    | .importStmt names => names.map some
    | .importFrom m _ => [m]
    | _ => []

/-- The classes list of `_check_structure`: walk order, duplicates kept. -/
def a1_classes (t : Node) : List String :=
  (walk t).filterMap fun n =>
    match n with
    | .classDef name _ => some name
    | _ => none

/-- The functions list of `_check_structure`: every `FunctionDef` name —
methods are *not* excluded.  Walk order, duplicates kept. -/
def a1_functions (t : Node) : List String :=
  (walk t).filterMap fun n =>
    match n with
    | .functionDef name _ _ _ => some name
    | _ => none

/-- One line of `_check_docstrings`: methods are qualified as
`f"{node.parent.name}_{name}"` (underscore, not dot); the docstring test is
Python truthiness. -/
def a1DocLine (parents : Node → Option Node) (n : Node) : String :=
  let name :=
    if isFunctionDef n && is_method n parents then
      (match parents n with
       | some p => nodeName p
       | none => "") ++ "_" ++ nodeName n
    else nodeName n
  match get_docstring n with
  | some doc => if doc ≠ "" then name ++ " DocString: " ++ doc ++ "\n"
      else name ++ " DocString not found." ++ "\n"
  | none => name ++ " DocString not found." ++ "\n"

/-- The report lines appended by `_check_docstrings`, in walk order. -/
def a1_docstring_lines (t : Node) (parents : Node → Option Node) :
    List String :=
  ((walk t).filter isDefNode).map (a1DocLine parents)

/-- The `missing_annotations` list of `_check_type_annotations`: for each
`FunctionDef`, the bare name is appended once if some positional parameter
is unannotated and appended (again) if the return is unannotated. -/
def a1_missing_annotations (t : Node) : List String :=
  (walk t).flatMap fun n =>
    match n with
    | .functionDef name args ret _ =>
        (if args.args.any fun a => a.annot.isNone then [name] else []) ++
        (if ret.isNone then [name] else [])
    | _ => []

/-- First character uppercase (`name[0].isupper()`; class names are never
empty, so the empty case is unreachable and maps to `false`). -/
def firstIsUpper (name : String) : Bool :=
  match name.data with
  | c :: _ => c.isUpper
  | [] => false

/-- The snake_case test of `_check_naming_conventions`:
`not all(x.islower() or x == '_' for x in node.name) and node.name != 'lower'`. -/
def a1_snake_bad (name : String) : Bool :=
  !(name.data.all fun c => c.isLower || c == '_') && name != "lower"

/-- The `incorrect_classes` list of `_check_naming_conventions`: a class is
flagged iff its first character is not uppercase. -/
def a1_incorrect_classes (t : Node) : List String :=
  (walk t).filterMap fun n =>
    match n with
    | .classDef name _ => if !firstIsUpper name then some name else none
    | _ => none

/-- The `incorrect_functions` list of `_check_naming_conventions`: bare
names, walk order. -/
def a1_incorrect_functions (t : Node) : List String :=
  (walk t).filterMap fun n =>
    match n with
    | .functionDef name _ _ _ => if a1_snake_bad name then some name else none
    | _ => none

end A1

/-! ## Walk structure

The breadth-first walk satisfies the equation
`walkFrom l = l ++ (walkFrom l).flatMap iter_child_nodes`: the visited
nodes are the work list followed by all children of visited nodes, in
order.  Everything about node occurrence counts follows from it. -/

namespace Checker

theorem walkFrom_eq :
    ∀ k (todo : List Node), sizeList todo ≤ k →
      walkFrom todo = todo ++ (walkFrom todo).flatMap iter_child_nodes := by
  intro k
  induction k with
  | zero =>
    intro todo h
    match todo with
    | [] => simp [walkFrom_nil]
    | n :: rest =>
      exfalso
      have := sizeNode_pos n
      simp [sizeList] at h
      omega
  | succ k ih =>
    intro todo h
    match todo with
    | [] => simp [walkFrom_nil]
    | n :: rest =>
      have hsz : sizeList (rest ++ iter_child_nodes n) ≤ k := by
        simp only [sizeList, sizeList_append] at h ⊢
        have := sizeNode_eq n
        omega
      rw [walkFrom_cons]
      simp only [List.flatMap_cons]
      conv_lhs => rw [ih (rest ++ iter_child_nodes n) hsz]
      simp [List.append_assoc]

theorem walk_eq (t : Node) :
    walk t = [t] ++ (walk t).flatMap iter_child_nodes :=
  walkFrom_eq (sizeList [t]) [t] le_rfl

theorem walk_cons (t : Node) :
    walk t = t :: walkFrom (iter_child_nodes t) := by
  unfold walk
  rw [walkFrom_cons]
  simp

theorem self_mem_walk (t : Node) : t ∈ walk t := by
  rw [walk_cons]
  exact List.mem_cons_self _ _

theorem count_flatMap_nodes (f : Node → List Node) (l : List Node) (n : Node) :
    List.count n (l.flatMap f) = (l.map fun a => List.count n (f a)).sum := by
  induction l with
  | nil => simp
  | cons x xs ih => simp [List.flatMap_cons, List.count_append, ih]

theorem walk_count (t n : Node) :
    List.count n (walk t) =
      (if n = t then 1 else 0) +
        ((walk t).map fun p => List.count n (iter_child_nodes p)).sum := by
  conv_lhs => rw [walk_eq]
  rw [List.count_append, count_flatMap_nodes]
  congr 1
  by_cases h : n = t <;> simp [List.count_cons, h]

theorem sum_eq_one_localize {α : Type} (l : List α) (f : α → Nat)
    (h : (l.map f).sum = 1) :
    ∃ p ∈ l, f p = 1 ∧ ∀ q ∈ l, f q = 0 ∨ q = p := by
  induction l with
  | nil => simp at h
  | cons x xs ih =>
    simp only [List.map_cons, List.sum_cons] at h
    by_cases hx : f x = 0
    · rw [hx] at h
      simp only [Nat.zero_add] at h
      obtain ⟨p, hp, hp1, hrest⟩ := ih h
      refine ⟨p, List.mem_cons_of_mem _ hp, hp1, ?_⟩
      intro q hq
      rcases List.mem_cons.mp hq with rfl | hq'
      · exact Or.inl hx
      · exact hrest q hq'
    · have hx1 : f x = 1 ∧ (xs.map f).sum = 0 := by omega
      refine ⟨x, List.mem_cons_self x xs, hx1.1, ?_⟩
      intro q hq
      rcases List.mem_cons.mp hq with rfl | hq'
      · exact Or.inr rfl
      · exact Or.inl (List.sum_eq_zero_iff.mp hx1.2 _
          (List.mem_map_of_mem f hq'))

theorem nodup_count_eq_one {t : Node} (h : (walk t).Nodup) {n : Node}
    (hn : n ∈ walk t) : List.count n (walk t) = 1 := by
  have h1 := List.nodup_iff_count_le_one.mp h n
  have h2 := List.count_pos_iff.mpr hn
  omega

theorem exists_unique_parent (t : Node) (h : (walk t).Nodup) (n : Node)
    (hn : n ∈ walk t) (hne : n ≠ t) :
    ∃ p, p ∈ walk t ∧ n ∈ iter_child_nodes p ∧
      ∀ q ∈ walk t, n ∈ iter_child_nodes q → q = p := by
  have hsum :
      ((walk t).map fun p => List.count n (iter_child_nodes p)).sum = 1 := by
    have hw := walk_count t n
    rw [if_neg hne, Nat.zero_add] at hw
    rw [← hw]
    exact nodup_count_eq_one h hn
  obtain ⟨p, hp, hp1, hrest⟩ := sum_eq_one_localize _ _ hsum
  refine ⟨p, hp, List.count_pos_iff.mp (by omega), ?_⟩
  intro q hq hqn
  rcases hrest q hq with h0 | rfl
  · exact absurd (List.count_eq_zero.mp h0) (by simpa using hqn)
  · rfl

theorem root_not_mem_children (t : Node) (h : (walk t).Nodup) :
    ∀ p ∈ walk t, t ∉ iter_child_nodes p := by
  have hsum :
      ((walk t).map fun p => List.count t (iter_child_nodes p)).sum = 0 := by
    have hw := walk_count t t
    rw [if_pos rfl] at hw
    have hc := nodup_count_eq_one h (self_mem_walk t)
    omega
  intro p hp hmem
  have h0 : List.count t (iter_child_nodes p) = 0 :=
    List.sum_eq_zero_iff.mp hsum _ (List.mem_map_of_mem _ hp)
  exact (List.count_eq_zero.mp h0) hmem

end Checker

/-! ## Dict / attribute lookup -/

namespace Checker

theorem dictLookup_eq_some {β : Type} (l : List (Node × β)) (n : Node) (v : β)
    (hmem : (n, v) ∈ l) (huniq : ∀ w, (n, w) ∈ l → w = v) :
    dictLookup l n = some v := by
  induction l with
  | nil => simp at hmem
  | cons x xs ih =>
    obtain ⟨k, w⟩ := x
    by_cases hk : k = n
    · subst hk
      have hw : w = v := huniq w (List.mem_cons_self _ _)
      subst hw
      simp [dictLookup]
    · simp only [dictLookup, if_neg hk]
      apply ih
      · rcases List.mem_cons.mp hmem with he | hm
        · exact absurd (congrArg Prod.fst he).symm hk
        · exact hm
      · intro w' hw'
        exact huniq w' (List.mem_cons_of_mem _ hw')

theorem dictLookup_eq_none {β : Type} (l : List (Node × β)) (n : Node)
    (h : ∀ w, (n, w) ∉ l) : dictLookup l n = none := by
  induction l with
  | nil => rfl
  | cons x xs ih =>
    obtain ⟨k, w⟩ := x
    have hk : k ≠ n := by
      intro he
      exact h w (by rw [he]; exact List.mem_cons_self _ _)
    simp only [dictLookup, if_neg hk]
    exact ih fun w' hw' => h w' (List.mem_cons_of_mem _ hw')

/-- The bindings written by the comprehension part of `build_parent_map`:
`(n, v)` is written iff `v = some p` for some visited `p` having `n` among
its children. -/
theorem mem_childPairs {t n : Node} {v : Option Node} :
    ((n, v) ∈
      (walk t).flatMap fun p =>
        (iter_child_nodes p).map fun c => (c, some p)) ↔
      ∃ p, p ∈ walk t ∧ v = some p ∧ n ∈ iter_child_nodes p := by
  simp only [List.mem_flatMap, List.mem_map, Prod.mk.injEq]
  constructor
  · rintro ⟨p, hp, c, hc, rfl, rfl⟩
    exact ⟨p, hp, rfl, hc⟩
  · rintro ⟨p, hp, rfl, hc⟩
    exact ⟨p, hp, n, hc, rfl, rfl⟩

/-- The attribute writes of `attach_parents`: `(n, v)` is written iff `v` is
a visited node having `n` among its children. -/
theorem mem_attachPairs {t n v : Node} :
    (n, v) ∈ A1.attachPairs t ↔
      v ∈ walk t ∧ n ∈ iter_child_nodes v := by
  unfold A1.attachPairs
  simp only [List.mem_flatMap, List.mem_map, Prod.mk.injEq]
  constructor
  · rintro ⟨p, hp, c, hc, rfl, rfl⟩
    exact ⟨hp, hc⟩
  · rintro ⟨hp, hc⟩
    exact ⟨v, hp, n, hc, rfl, rfl⟩

theorem build_parent_map_root (t : Node) :
    build_parent_map t t = some none := by
  unfold build_parent_map parentPairs
  rw [List.reverse_append]
  simp [dictLookup]

theorem build_parent_map_child (t : Node) (h : (walk t).Nodup) (n : Node)
    (hn : n ∈ walk t) (hne : n ≠ t) :
    ∃ p, p ∈ walk t ∧ n ∈ iter_child_nodes p ∧
      build_parent_map t n = some (some p) ∧
      A1.parentAttr t n = some p ∧
      ∀ q ∈ walk t, n ∈ iter_child_nodes q → q = p := by
  obtain ⟨p, hp, hchild, huniq⟩ := exists_unique_parent t h n hn hne
  refine ⟨p, hp, hchild, ?_, ?_, huniq⟩
  · unfold build_parent_map parentPairs
    rw [List.reverse_append]
    simp only [List.reverse_cons, List.reverse_nil, List.nil_append,
      List.singleton_append, dictLookup, if_neg (Ne.symm hne)]
    apply dictLookup_eq_some
    · exact List.mem_reverse.mpr (mem_childPairs.mpr ⟨p, hp, rfl, hchild⟩)
    · intro w hw
      obtain ⟨q, hq, rfl, hqc⟩ := mem_childPairs.mp (List.mem_reverse.mp hw)
      rw [huniq q hq hqc]
  · unfold A1.parentAttr
    apply dictLookup_eq_some
    · exact List.mem_reverse.mpr (mem_attachPairs.mpr ⟨hp, hchild⟩)
    · intro w hw
      obtain ⟨hq, hqc⟩ := mem_attachPairs.mp (List.mem_reverse.mp hw)
      exact huniq w hq hqc

theorem parentAttr_root (t : Node) (h : (walk t).Nodup) :
    A1.parentAttr t t = none := by
  unfold A1.parentAttr
  apply dictLookup_eq_none
  intro w hw
  obtain ⟨hq, hqc⟩ := mem_attachPairs.mp (List.mem_reverse.mp hw)
  exact root_not_mem_children t h w hq hqc

end Checker

/-! ## Character-level facts

`Char.toLower` / `Char.isUpper` / `Char.isLower` act on the ASCII range;
the facts below relate them so that the string-level naming rules can be
reasoned about. -/

namespace Checker

theorem char_toNat_ofNatAux (n : Nat) (h : n.isValidChar) :
    (Char.ofNatAux n h).toNat = n := rfl

theorem char_toNat_ofNat_valid (n : Nat) (h : n.isValidChar) :
    (Char.ofNat n).toNat = n := by
  unfold Char.ofNat
  rw [dif_pos h]
  exact char_toNat_ofNatAux n h

theorem char_isUpper_iff (c : Char) :
    c.isUpper = true ↔ 65 ≤ c.toNat ∧ c.toNat ≤ 90 := by
  have h65 : (65 : UInt32).toBitVec.toNat = 65 := rfl
  have h90 : (90 : UInt32).toBitVec.toNat = 90 := rfl
  simp only [Char.isUpper, ge_iff_le, Bool.and_eq_true, decide_eq_true_eq,
    UInt32.le_def, BitVec.le_def, h65, h90, Char.toNat, UInt32.toNat]

theorem char_isLower_iff (c : Char) :
    c.isLower = true ↔ 97 ≤ c.toNat ∧ c.toNat ≤ 122 := by
  have h97 : (97 : UInt32).toBitVec.toNat = 97 := rfl
  have h122 : (122 : UInt32).toBitVec.toNat = 122 := rfl
  simp only [Char.isLower, ge_iff_le, Bool.and_eq_true, decide_eq_true_eq,
    UInt32.le_def, BitVec.le_def, h97, h122, Char.toNat, UInt32.toNat]

theorem char_toNat_inj {c d : Char} (h : c.toNat = d.toNat) : c = d := by
  have := congrArg Char.ofNat h
  rwa [Char.ofNat_toNat, Char.ofNat_toNat] at this

theorem toLower_of_upper (c : Char) (h : c.isUpper = true) :
    (Char.toLower c).toNat = c.toNat + 32 := by
  have hb := (char_isUpper_iff c).mp h
  have hval : (c.toNat + 32).isValidChar := by
    left
    omega
  simp only [Char.toLower]
  rw [if_pos (by omega : c.toNat ≥ 65 ∧ c.toNat ≤ 90)]
  exact char_toNat_ofNat_valid _ hval

theorem toLower_of_not_upper (c : Char) (h : c.isUpper = false) :
    Char.toLower c = c := by
  have hb : ¬ (65 ≤ c.toNat ∧ c.toNat ≤ 90) := by
    intro hc
    rw [(char_isUpper_iff c).mpr hc] at h
    simp at h
  simp only [Char.toLower]
  rw [if_neg (by omega : ¬ (c.toNat ≥ 65 ∧ c.toNat ≤ 90))]

theorem toLower_ne_of_upper (c : Char) (h : c.isUpper = true) :
    Char.toLower c ≠ c := by
  intro he
  have := toLower_of_upper c h
  rw [he] at this
  omega

theorem toLower_eq_self_iff (c : Char) :
    Char.toLower c = c ↔ c.isUpper = false := by
  constructor
  · intro he
    by_contra hne
    exact toLower_ne_of_upper c (by simpa using hne) he
  · exact toLower_of_not_upper c

theorem isUpper_ne_underscore (c : Char) (h : c.isUpper = true) : c ≠ '_' := by
  intro he
  rw [he] at h
  rw [char_isUpper_iff] at h
  simp at h

theorem isUpper_not_isLower (c : Char) (h : c.isUpper = true) :
    c.isLower = false := by
  rw [char_isUpper_iff] at h
  by_contra hne
  have hl := (char_isLower_iff c).mp (by simpa using hne)
  omega

/-! ## The lexicographic string order -/

theorem charLtB_iff (a b : Char) :
    charLtB a b = true ↔ a.toNat < b.toNat := by
  simp [charLtB]

theorem lexLe_cons_iff (a b : Char) (as bs : List Char) :
    lexLe (a :: as) (b :: bs) = true ↔
      a.toNat < b.toNat ∨ (a.toNat = b.toNat ∧ lexLe as bs = true) := by
  simp only [lexLe]
  by_cases h1 : charLtB a b = true
  · have hab := (charLtB_iff a b).mp h1
    simp [if_pos h1, hab]
  · have hab : ¬ a.toNat < b.toNat := fun h => h1 ((charLtB_iff a b).mpr h)
    by_cases h2 : charLtB b a = true
    · have hba := (charLtB_iff b a).mp h2
      rw [if_neg h1, if_pos h2]
      constructor
      · intro hf
        exact absurd hf (by simp)
      · rintro (h | ⟨h, _⟩) <;> omega
    · have hba : ¬ b.toNat < a.toNat := fun h => h2 ((charLtB_iff b a).mpr h)
      rw [if_neg h1, if_neg h2]
      constructor
      · intro hle
        exact Or.inr ⟨by omega, hle⟩
      · rintro (hlt | ⟨_, hle⟩)
        · exact absurd hlt hab
        · exact hle

theorem lexLe_total : ∀ as bs : List Char,
    lexLe as bs = true ∨ lexLe bs as = true := by
  intro as
  induction as with
  | nil => intro bs; left; rfl
  | cons a as ih =>
    intro bs
    match bs with
    | [] => right; rfl
    | b :: bs =>
      rw [lexLe_cons_iff, lexLe_cons_iff]
      rcases Nat.lt_trichotomy a.toNat b.toNat with h | h | h
      · exact Or.inl (Or.inl h)
      · rcases ih bs with h' | h'
        · exact Or.inl (Or.inr ⟨h, h'⟩)
        · exact Or.inr (Or.inr ⟨h.symm, h'⟩)
      · exact Or.inr (Or.inl h)

theorem lexLe_trans : ∀ as bs cs : List Char,
    lexLe as bs = true → lexLe bs cs = true → lexLe as cs = true := by
  intro as
  induction as with
  | nil => intro bs cs _ _; rfl
  | cons a as ih =>
    intro bs cs h1 h2
    match bs, cs with
    | [], _ => simp [lexLe] at h1
    | b :: bs, [] => simp [lexLe] at h2
    | b :: bs, c :: cs =>
      rw [lexLe_cons_iff] at h1 h2 ⊢
      rcases h1 with hlt1 | ⟨heq1, hle1⟩
      · rcases h2 with hlt2 | ⟨heq2, _⟩
        · exact Or.inl (by omega)
        · exact Or.inl (by omega)
      · rcases h2 with hlt2 | ⟨heq2, hle2⟩
        · exact Or.inl (by omega)
        · exact Or.inr ⟨by omega, ih bs cs hle1 hle2⟩

theorem lexLe_antisymm : ∀ as bs : List Char,
    lexLe as bs = true → lexLe bs as = true → as = bs := by
  intro as
  induction as with
  | nil =>
    intro bs h1 h2
    match bs with
    | [] => rfl
    | b :: bs => simp [lexLe] at h2
  | cons a as ih =>
    intro bs h1 h2
    match bs with
    | [] => simp [lexLe] at h1
    | b :: bs =>
      rw [lexLe_cons_iff] at h1 h2
      have hab : a.toNat = b.toNat := by omega
      have h1' : lexLe as bs = true := by
        rcases h1 with h | ⟨_, h⟩
        · omega
        · exact h
      have h2' : lexLe bs as = true := by
        rcases h2 with h | ⟨_, h⟩
        · omega
        · exact h
      rw [char_toNat_inj hab, ih bs h1' h2']

theorem string_data_inj {a b : String} (h : a.data = b.data) : a = b := by
  cases a
  cases b
  exact congrArg String.mk h

instance : IsTotal String strOrd :=
  ⟨fun a b => lexLe_total a.data b.data⟩

instance : IsTrans String strOrd :=
  ⟨fun a b c => lexLe_trans a.data b.data c.data⟩

instance : IsAntisymm String strOrd :=
  ⟨fun a b h1 h2 => string_data_inj (lexLe_antisymm a.data b.data h1 h2)⟩

end Checker

/-! ## Sorted output facts -/

namespace Checker

theorem mem_pySorted {s : String} {l : List String} :
    s ∈ pySorted l ↔ s ∈ l :=
  List.mem_insertionSort strOrd

theorem pySorted_sorted (l : List String) :
    List.Sorted strOrd (pySorted l) :=
  List.sorted_insertionSort strOrd l

theorem mem_sortedStringSet {s : String} {l : List String} :
    s ∈ sortedStringSet l ↔ s ∈ l := by
  unfold sortedStringSet
  rw [mem_pySorted, List.mem_dedup]

theorem sortedStringSet_nodup (l : List String) :
    (sortedStringSet l).Nodup :=
  ((List.perm_insertionSort strOrd l.dedup).nodup_iff).mpr (List.nodup_dedup l)

theorem sortedStringSet_sorted (l : List String) :
    List.Sorted strOrd (sortedStringSet l) :=
  List.sorted_insertionSort strOrd l.dedup

theorem sortedStringSet_toFinset (l : List String) :
    (sortedStringSet l).toFinset = l.toFinset := by
  ext s
  rw [List.mem_toFinset, List.mem_toFinset, mem_sortedStringSet]

theorem sortedStringSet_congr {l1 l2 : List String}
    (h : l1.toFinset = l2.toFinset) :
    sortedStringSet l1 = sortedStringSet l2 :=
  List.eq_of_perm_of_sorted
    (List.perm_of_nodup_nodup_toFinset_eq (sortedStringSet_nodup l1)
      (sortedStringSet_nodup l2)
      (by rw [sortedStringSet_toFinset, sortedStringSet_toFinset, h]))
    (sortedStringSet_sorted l1) (sortedStringSet_sorted l2)

/-! ## The two snake_case formulations -/

theorem map_toLower_eq_self_iff (l : List Char) :
    l.map Char.toLower = l ↔ ∀ c ∈ l, Char.toLower c = c := by
  induction l with
  | nil => simp
  | cons x xs ih => simp [List.forall_mem_cons, ih]

theorem py_str_lower_eq_iff (name : String) :
    name = py_str_lower name ↔ ∀ c ∈ name.data, c.isUpper = false := by
  unfold py_str_lower
  constructor
  · intro he c hc
    have hdata : name.data = name.data.map Char.toLower := by
      conv_lhs => rw [he]
    rw [← toLower_eq_self_iff]
    exact (map_toLower_eq_self_iff name.data |>.mp hdata.symm) c hc
  · intro hall
    apply string_data_inj
    show name.data = name.data.map Char.toLower
    exact ((map_toLower_eq_self_iff name.data).mpr
      fun c hc => (toLower_eq_self_iff c).mpr (hall c hc)).symm

theorem py_str_lower_ne_iff (name : String) :
    name ≠ py_str_lower name ↔
      ∃ c ∈ name.data, c ≠ '_' ∧ c.isUpper = true := by
  rw [Ne, py_str_lower_eq_iff]
  constructor
  · intro hne
    push_neg at hne
    obtain ⟨c, hc, hup⟩ := hne
    have hup' : c.isUpper = true := by
      cases h : c.isUpper
      · exact absurd h hup
      · rfl
    exact ⟨c, hc, isUpper_ne_underscore c hup', hup'⟩
  · rintro ⟨c, hc, _, hup⟩ hall
    rw [hall c hc] at hup
    exact Bool.false_ne_true hup

end Checker

/-! ## Specification-side definitions and concrete sample inputs

`specIncomplete` and `preorderNode` are written from the specification's
words (not from the source) so that the source behaviour can be compared
against them.  The sample trees are concrete inputs used by witnesses and
counterexamples. -/

namespace Checker

/-- The annotation-completeness predicate as the C1 claim words it:
catch-all parameters (`*args` / `**kwargs`) are "treated the same as
ordinary parameters", so their annotations are examined too. -/
def specIncomplete (args : Arguments) (ret : Option String) : Bool :=
  ((args.args ++ args.vararg.toList ++ args.kwarg.toList).any fun a =>
    a.annot.isNone) || ret.isNone

mutual
/-- Depth-first pre-order traversal — the "tree pre-order" that claim C7
asserts for the documentation entries (written from the claim's words, to
be compared with the `ast.walk` order the code actually uses). -/
def preorderNode : Node → List Node
  | .module body => .module body :: preorderList body
  | .importStmt ns => [.importStmt ns]
  | .importFrom m ns => [.importFrom m ns]
  | .classDef name body => .classDef name body :: preorderList body
  | .functionDef name args ret body =>
      .functionDef name args ret body :: preorderList body
  | .exprStr s => [.exprStr s]
  | .otherStmt cs => .otherStmt cs :: preorderList cs

/-- Pre-order traversal of a list of siblings. -/
def preorderList : List Node → List Node
  | [] => []
  | n :: ns => preorderNode n ++ preorderList ns
end

/-- The documentation payload of an entry: the docstring when present and
non-empty (Python truthiness), otherwise the explicit absence marker. -/
def docPayload (n : Node) : String :=
  match get_docstring n with
  | some d => if d ≠ "" then d else "DocString not found."
  | none => "DocString not found."

/-- Method `bar(x)` of class `Foo` — unannotated, no docstring (from the
specification's sample scenario). -/
def sampleBar : Node :=
  .functionDef "bar" ⟨[⟨"x", none⟩], none, none⟩ none [.otherStmt []]

/-- Class `Foo` containing only the method `bar`. -/
def sampleFoo : Node := .classDef "Foo" [sampleBar]

/-- Module-level function `baz(x: int) -> int` with docstring `doc`. -/
def sampleBaz : Node :=
  .functionDef "baz" ⟨[⟨"x", some "int"⟩], none, none⟩ (some "int")
    [.exprStr "doc"]

/-- The specification's sample module: class `Foo` with method `bar`, plus
function `baz`. -/
def sampleTree : Node := .module [sampleFoo, sampleBaz]

/-- The parent map of the sample module, as the `.get` view. -/
def sampleParents : Node → Option Node := getParent sampleTree

/-- `def f(*args) -> int:` — the only parameter is an unannotated `*args`
catch-all, the return type is annotated. -/
def starArgs : Arguments := ⟨[], some ⟨"args", none⟩, none⟩

/-- The function node for `def f(*args) -> int`. -/
def starFn : Node := .functionDef "f" starArgs (some "int") [.otherStmt []]

/-- A module containing only `def f(*args) -> int`. -/
def starTree : Node := .module [starFn]

/-- A module containing only `def g(x):` (unannotated). -/
def plainTree : Node :=
  .module [.functionDef "g" ⟨[⟨"x", none⟩], none, none⟩ none [.otherStmt []]]

/-- A module containing only `class Foo_bar:` (leading uppercase, but with
an underscore). -/
def fooBarTree : Node := .module [.classDef "Foo_bar" []]

/-- A module with duplicate, unordered imports: `import b`, `import a`,
`import b`. -/
def dupTree : Node :=
  .module [.importStmt ["b"], .importStmt ["a"], .importStmt ["b"]]

/-- The same set of imports in a different source order: `import a`,
`import b`. -/
def dupTree2 : Node := .module [.importStmt ["a"], .importStmt ["b"]]

/-- A module with a relative import `from . import x` and `import b`. -/
def relImportTree : Node :=
  .module [.importFrom none ["x"], .importStmt ["b"]]

/-- A module where breadth-first and pre-order traversal differ:
`class A: def m(x): ...` followed by `def b(x): ...`. -/
def preTree : Node :=
  .module
    [.classDef "A"
      [.functionDef "m" ⟨[⟨"x", none⟩], none, none⟩ none [.otherStmt []]],
     .functionDef "b" ⟨[⟨"x", none⟩], none, none⟩ none [.otherStmt []]]

end Checker

/-! ## Membership characterizations of the auditors' outputs -/

namespace Checker

theorem incomplete_iff (args : Arguments) (ret : Option String) :
    incomplete args ret = true ↔
      (∃ a ∈ args.args, a.annot = none) ∨ ret = none := by
  unfold incomplete
  simp [List.any_eq_true, Option.isNone_iff_eq_none]

theorem fmtEntry_eq (parents : Node → Option Node) (n : Node) :
    fmtEntry parents n =
      qualifiedDocName parents n ++ ": " ++ docPayload n := by
  unfold fmtEntry docPayload
  cases hds : get_docstring n with
  | none =>
    dsimp only
    rw [String.append_assoc]
    rfl
  | some d =>
    dsimp only
    by_cases hd : d = ""
    · subst hd
      rw [if_neg (by simp), if_neg (by simp), String.append_assoc]
      rfl
    · rw [if_pos hd, if_pos hd]

theorem mem_missing_type_annotations {t : Node}
    {parents : Node → Option Node} {s : String} :
    s ∈ missing_type_annotations t parents ↔
      ∃ name args ret body,
        Node.functionDef name args ret body ∈ walk t ∧
        incomplete args ret = true ∧
        qualNameOf parents (Node.functionDef name args ret body) = s := by
  unfold missing_type_annotations
  rw [mem_pySorted, List.mem_filterMap]
  constructor
  · rintro ⟨n, hn, hsome⟩
    cases n with
    | functionDef name args ret body =>
      have hsome' :
          (if incomplete args ret then
            some (qualNameOf parents (.functionDef name args ret body))
          else none) = some s := hsome
      by_cases hinc : incomplete args ret = true
      · rw [if_pos hinc] at hsome'
        exact ⟨name, args, ret, body, hn, hinc, Option.some.inj hsome'⟩
      · rw [if_neg hinc] at hsome'
        exact absurd hsome' (by simp)
    | module b => exact Option.noConfusion hsome
    | importStmt ns => exact Option.noConfusion hsome
    | importFrom m ns => exact Option.noConfusion hsome
    | classDef name b => exact Option.noConfusion hsome
    | exprStr str => exact Option.noConfusion hsome
    | otherStmt cs => exact Option.noConfusion hsome
  · rintro ⟨name, args, ret, body, hn, hinc, rfl⟩
    refine ⟨.functionDef name args ret body, hn, ?_⟩
    show (if incomplete args ret then
      some (qualNameOf parents (.functionDef name args ret body))
    else none) = _
    rw [if_pos hinc]

theorem mem_badClassList {t : Node} {s : String} :
    s ∈ badClassList t ↔
      ∃ body, Node.classDef s body ∈ walk t ∧ _violates_camel s = true := by
  unfold badClassList
  rw [List.mem_filterMap]
  constructor
  · rintro ⟨n, hn, hsome⟩
    cases n with
    | classDef name b =>
      have hsome' :
          (if _violates_camel name then some name else none) = some s := hsome
      by_cases hv : _violates_camel name = true
      · rw [if_pos hv] at hsome'
        obtain rfl := Option.some.inj hsome'
        exact ⟨b, hn, hv⟩
      · rw [if_neg hv] at hsome'
        exact absurd hsome' (by simp)
    | module b => exact Option.noConfusion hsome
    | importStmt ns => exact Option.noConfusion hsome
    | importFrom m ns => exact Option.noConfusion hsome
    | functionDef name args ret b => exact Option.noConfusion hsome
    | exprStr str => exact Option.noConfusion hsome
    | otherStmt cs => exact Option.noConfusion hsome
  · rintro ⟨body, hn, hv⟩
    refine ⟨.classDef s body, hn, ?_⟩
    show (if _violates_camel s then some s else none) = _
    rw [if_pos hv]

theorem mem_badFuncList {t : Node} {parents : Node → Option Node}
    {s : String} :
    s ∈ badFuncList t parents ↔
      ∃ name args ret body,
        Node.functionDef name args ret body ∈ walk t ∧
        _violates_snake name = true ∧
        qualNameOf parents (Node.functionDef name args ret body) = s := by
  unfold badFuncList
  rw [List.mem_filterMap]
  constructor
  · rintro ⟨n, hn, hsome⟩
    cases n with
    | functionDef name args ret body =>
      have hsome' :
          (if _violates_snake name then
            some (qualNameOf parents (.functionDef name args ret body))
          else none) = some s := hsome
      by_cases hv : _violates_snake name = true
      · rw [if_pos hv] at hsome'
        exact ⟨name, args, ret, body, hn, hv, Option.some.inj hsome'⟩
      · rw [if_neg hv] at hsome'
        exact absurd hsome' (by simp)
    | module b => exact Option.noConfusion hsome
    | importStmt ns => exact Option.noConfusion hsome
    | importFrom m ns => exact Option.noConfusion hsome
    | classDef name b => exact Option.noConfusion hsome
    | exprStr str => exact Option.noConfusion hsome
    | otherStmt cs => exact Option.noConfusion hsome
  · rintro ⟨name, args, ret, body, hn, hv, rfl⟩
    refine ⟨.functionDef name args ret body, hn, ?_⟩
    show (if _violates_snake name then
      some (qualNameOf parents (.functionDef name args ret body))
    else none) = _
    rw [if_pos hv]

theorem mem_importNameList {t : Node} {s : String} :
    s ∈ importNameList t ↔
      (∃ names, Node.importStmt names ∈ walk t ∧ s ∈ names) ∨
      (∃ ns, Node.importFrom (some s) ns ∈ walk t ∧ s ≠ "") := by
  unfold importNameList
  rw [List.mem_append, List.mem_flatMap, List.mem_filterMap]
  constructor
  · rintro (⟨n, hn, hs⟩ | ⟨n, hn, hsome⟩)
    · left
      cases n with
      | importStmt names => exact ⟨names, hn, hs⟩
      | module b => exact absurd hs (by simp)
      | importFrom m ns => exact absurd hs (by simp)
      | classDef name b => exact absurd hs (by simp)
      | functionDef name args ret b => exact absurd hs (by simp)
      | exprStr str => exact absurd hs (by simp)
      | otherStmt cs => exact absurd hs (by simp)
    · right
      cases n with
      | importFrom m ns =>
        cases m with
        | some v =>
          have hsome' : (if v ≠ "" then some v else none) = some s := hsome
          by_cases hv : v = ""
          · rw [if_neg (by simp [hv])] at hsome'
            exact absurd hsome' (by simp)
          · rw [if_pos hv] at hsome'
            obtain rfl := Option.some.inj hsome'
            exact ⟨ns, hn, hv⟩
        | none => exact Option.noConfusion hsome
      | module b => exact Option.noConfusion hsome
      | importStmt ns => exact Option.noConfusion hsome
      | classDef name b => exact Option.noConfusion hsome
      | functionDef name args ret b => exact Option.noConfusion hsome
      | exprStr str => exact Option.noConfusion hsome
      | otherStmt cs => exact Option.noConfusion hsome
  · rintro (⟨names, hn, hs⟩ | ⟨ns, hn, hne⟩)
    · exact Or.inl ⟨.importStmt names, hn, hs⟩
    · refine Or.inr ⟨.importFrom (some s) ns, hn, ?_⟩
      show (if s ≠ "" then some s else none) = _
      rw [if_pos hne]

theorem violates_camel_iff (name : String) :
    _violates_camel name = true ↔
      ¬ (name ≠ "" ∧ A1.firstIsUpper name = true ∧
          name.data.contains '_' = false) := by
  unfold _violates_camel A1.firstIsUpper
  rw [Bool.not_eq_true']
  simp only [Bool.and_eq_false_iff, Bool.not_eq_false', Bool.not_eq_true,
    Bool.not_eq_false]
  constructor
  · intro h hcl
    obtain ⟨hne, hfirst, hcont⟩ := hcl
    rcases h with (h | h) | h
    · rw [String.isEmpty_iff name] at h
      exact hne h
    · rw [hfirst] at h
      simp at h
    · rw [hcont] at h
      simp at h
  · intro h
    by_cases hne : name = ""
    · exact Or.inl (Or.inl ((String.isEmpty_iff name).mpr hne))
    · by_cases hfirst : (match name.data with
        | c :: _ => c.isUpper
        | [] => false) = true
      · by_cases hcont : name.data.contains '_' = true
        · exact Or.inr hcont
        · exact absurd ⟨hne, hfirst, by simpa using hcont⟩ h
      · exact Or.inl (Or.inr (by simpa using hfirst))

end Checker

/-! ## Assignment 1 report lines for the annotation / naming sections -/

namespace A1

open Checker

/-- Python `str()` of a list of strings: `['a', 'b']`. -/
def pyListRepr (l : List String) : String :=
  "[" ++ String.intercalate ", " (l.map fun s => "'" ++ s ++ "'") ++ "]"

/-- The line appended by `_check_type_annotations`: the formatted missing
list when non-empty (Python truthiness), else the compliance statement. -/
def a1_annotation_report (t : Node) : String :=
  if a1_missing_annotations t ≠ [] then
    "Functions missing type annotations: " ++
      pyListRepr (a1_missing_annotations t)
  else "All functions and methods have type annotations."

/-- The lines appended by `_check_naming_conventions`: one line per
non-empty violation list, and the compliance statement when both lists are
empty. -/
def a1_naming_report (t : Node) : List String :=
  (if a1_incorrect_classes t ≠ [] then
    ["Classes not using CamelCase: " ++ pyListRepr (a1_incorrect_classes t)]
  else []) ++
  (if a1_incorrect_functions t ≠ [] then
    ["Functions not using snake_case: " ++
      pyListRepr (a1_incorrect_functions t)]
  else []) ++
  (if a1_incorrect_classes t = [] ∧ a1_incorrect_functions t = [] then
    ["All names adhere to naming conventions."]
  else [])

end A1

/-- The empty module: zero imports, classes and functions. -/
def emptyTree : Node := Node.module []

/-! ## The claims -/

namespace Checker

/-- C3: the two formulations of the function/method naming rule agree for
every string — a name differs from its own lowercased form iff it contains
an uppercase character outside of underscores — and in particular
`getValue` is classified as a violation by `_violates_snake` while
`get_value` is not. -/
theorem C3_snake_formulations_agree :
    (∀ name : String,
      (name ≠ py_str_lower name ↔
        ∃ c ∈ name.data, c ≠ '_' ∧ c.isUpper = true)) ∧
    _violates_snake "getValue" = true ∧
    _violates_snake "get_value" = false :=
  ⟨py_str_lower_ne_iff, by decide, by decide⟩

/-- C10 counterexample: `f1` contains a digit, so assignment 1's
all-lowercase-or-underscore test flags it while assignment 2's
`_violates_snake` does not — the two function-naming checks are not
equivalent. -/
theorem C10_counterexample :
    A1.a1_snake_bad "f1" = true ∧ _violates_snake "f1" = false := by decide

/-- C10 (amended): the checks are not equivalent, but agree one-sidedly —
every name flagged by assignment 2's `_violates_snake` is also flagged by
assignment 1's test. -/
theorem C10_snake_subsumed (name : String)
    (h : _violates_snake name = true) : A1.a1_snake_bad name = true := by
  have hup : ∃ c ∈ name.data, c ≠ '_' ∧ c.isUpper = true := by
    unfold _violates_snake at h
    rcases Bool.or_eq_true_iff.mp h with h1 | h2
    · exact (py_str_lower_ne_iff name).mp (bne_iff_ne.mp h1)
    · simp only [List.any_eq_true, Bool.and_eq_true, decide_eq_true_eq] at h2
      obtain ⟨c, hc, hne, hupc⟩ := h2
      exact ⟨c, hc, hne, hupc⟩
  obtain ⟨c, hc, hneu, hupc⟩ := hup
  unfold A1.a1_snake_bad
  apply Bool.and_eq_true_iff.mpr
  constructor
  · rw [Bool.not_eq_true']
    rw [List.all_eq_false]
    refine ⟨c, hc, ?_⟩
    simp [isUpper_not_isLower c hupc, beq_iff_eq, hneu]
  · apply bne_iff_ne.mpr
    intro he
    subst he
    have hdata : ("lower" : String).data = ['l', 'o', 'w', 'e', 'r'] := rfl
    rw [hdata] at hc
    simp only [List.mem_cons, List.not_mem_nil, or_false] at hc
    rcases hc with rfl | rfl | rfl | rfl | rfl <;>
      exact absurd hupc (by decide)

/-- C10 witness: `getValue` is flagged by `_violates_snake`, and hence by
assignment 1's test as well. -/
theorem C10_witness :
    _violates_snake "getValue" = true ∧
    A1.a1_snake_bad "getValue" = true :=
  ⟨by decide, C10_snake_subsumed "getValue" (by decide)⟩

/-- C9: a name is in the imported inventory iff it is an `Import` alias
name or the truthy (present and non-empty) module of an `ImportFrom`; a
relative import with an absent module contributes nothing. -/
theorem C9_relative_imports_contribute_nothing (t : Node) (s : String) :
    s ∈ packages_imported t ↔
      (∃ names, Node.importStmt names ∈ walk t ∧ s ∈ names) ∨
      (∃ ns, Node.importFrom (some s) ns ∈ walk t ∧ s ≠ "") := by
  unfold packages_imported
  rw [mem_sortedStringSet, mem_importNameList]

/-- C9 witness: in a module with `from . import x` and `import b`, the
inventory is exactly `[b]`, and `b`'s membership follows from the
characterization. -/
theorem C9_witness :
    packages_imported relImportTree = ["b"] ∧
    "b" ∈ packages_imported relImportTree := by
  refine ⟨by decide, ?_⟩
  exact (C9_relative_imports_contribute_nothing relImportTree "b").mpr
    (Or.inl ⟨["b"], by decide, by decide⟩)

/-- C8: for an input with no imports, classes or functions, the rendered
report contains every section header, explicit `None` markers for the
empty inventory lists, and explicit full-compliance statements for the
annotation and naming sections (in both implementations). -/
theorem C8_empty_render (fname : String) (total : Nat) :
    render_lines fname total [] [] [] [] [] [] [] =
      ["File analysed: " ++ fname,
       "Total number of lines of code: " ++ toString total,
       "",
       "File Structure",
       "Packages imported: None",
       "Classes defined: None",
       "Functions defined: None",
       "",
       "DocStrings",
       "",
       "Type Annotation Check",
       "All functions and methods use type annotations.",
       "",
       "Naming Convention Check",
       "All names adhere to the specified conventions."] ∧
    render_report fname total [] [] [] [] [] [] [] =
      String.intercalate "\n"
        (render_lines fname total [] [] [] [] [] [] []) ∧
    A1.a1_annotation_report emptyTree =
      "All functions and methods have type annotations." ∧
    A1.a1_naming_report emptyTree =
      ["All names adhere to naming conventions."] :=
  ⟨rfl, rfl, by decide, by decide⟩

end Checker

namespace Checker

/-- C1 (amended): a function is reported by the annotation auditor iff
some ordinary positional parameter (`fn.args.args`) lacks an annotation or
the return type is unannotated; `*args`/`**kwargs` catch-alls are never
examined (contrary to the claim — see the counterexample). -/
theorem C1_missing_annotations_iff (t : Node)
    (parents : Node → Option Node) (s : String) :
    s ∈ missing_type_annotations t parents ↔
      ∃ name args ret body,
        Node.functionDef name args ret body ∈ walk t ∧
        s = qualNameOf parents (Node.functionDef name args ret body) ∧
        ((∃ a ∈ args.args, a.annot = none) ∨ ret = none) := by
  rw [mem_missing_type_annotations]
  constructor
  · rintro ⟨name, args, ret, body, hn, hinc, rfl⟩
    exact ⟨name, args, ret, body, hn, rfl, (incomplete_iff args ret).mp hinc⟩
  · rintro ⟨name, args, ret, body, hn, rfl, hcond⟩
    exact ⟨name, args, ret, body, hn,
      (incomplete_iff args ret).mpr hcond, rfl⟩

/-- C1 counterexample: `def f(*args) -> int` has an unannotated catch-all
parameter, so under the claim it must be reported incomplete, yet the
auditor reports nothing — only `fn.args.args` is examined. -/
theorem C1_counterexample :
    specIncomplete starArgs (some "int") = true ∧
    starFn ∈ walk starTree ∧
    missing_type_annotations starTree (getParent starTree) = [] := by
  decide

/-- C1 witness: in a module containing `def g(x):`, the characterization
reports `g`. -/
theorem C1_witness :
    "g" ∈ missing_type_annotations plainTree (getParent plainTree) :=
  (C1_missing_annotations_iff plainTree (getParent plainTree) "g").mpr
    ⟨"g", ⟨[⟨"x", none⟩], none, none⟩, none, [.otherStmt []], by decide,
      by decide, Or.inr rfl⟩

/-- C4 (amended): assignment 2's naming auditor flags a class name iff it
is not the case that the name is non-empty with an uppercase first
character and no underscore.  Assignment 1's auditor checks only the first
character, so it misses `Foo_bar` (see the counterexample). -/
theorem C4_bad_classes_iff (t : Node) (parents : Node → Option Node)
    (s : String) :
    s ∈ (naming_violations t parents).1 ↔
      ∃ body, Node.classDef s body ∈ walk t ∧
        ¬ (s ≠ "" ∧ A1.firstIsUpper s = true ∧
            s.data.contains '_' = false) := by
  show s ∈ sortedStringSet (badClassList t) ↔ _
  rw [mem_sortedStringSet, mem_badClassList]
  constructor
  · rintro ⟨body, hn, hv⟩
    exact ⟨body, hn, (violates_camel_iff s).mp hv⟩
  · rintro ⟨body, hn, hcond⟩
    exact ⟨body, hn, (violates_camel_iff s).mpr hcond⟩

/-- C4 counterexample: `Foo_bar` contains an underscore, so by the claim
it must be flagged; assignment 2 flags it, but assignment 1's auditor
flags nothing because only the first character is checked. -/
theorem C4_counterexample :
    _violates_camel "Foo_bar" = true ∧
    (naming_violations fooBarTree (getParent fooBarTree)).1 = ["Foo_bar"] ∧
    A1.a1_incorrect_classes fooBarTree = [] := by decide

/-- C4 witness: `Foo_bar` is in assignment 2's violation list via the
characterization. -/
theorem C4_witness :
    "Foo_bar" ∈ (naming_violations fooBarTree (getParent fooBarTree)).1 :=
  (C4_bad_classes_iff fooBarTree (getParent fooBarTree) "Foo_bar").mpr
    ⟨[], by decide, by decide⟩

/-- C6 (amended): assignment 2's three inventory collections are
deduplicated and sorted, and depend only on the *sets* of collected names,
so trees carrying the same names in any order and multiplicity yield
identical output.  (Assignment 1's `_check_structure` keeps duplicates and
source order — see the counterexample.) -/
theorem C6_inventory_deterministic (t1 t2 : Node)
    (parents1 parents2 : Node → Option Node)
    (himp : (importNameList t1).toFinset = (importNameList t2).toFinset)
    (hcls : (classNameList t1).toFinset = (classNameList t2).toFinset)
    (hfun : (functionNameList t1 parents1).toFinset =
      (functionNameList t2 parents2).toFinset) :
    packages_imported t1 = packages_imported t2 ∧
    classes_defined t1 = classes_defined t2 ∧
    functions_defined t1 parents1 = functions_defined t2 parents2 ∧
    (packages_imported t1).Nodup ∧
    List.Sorted strOrd (packages_imported t1) ∧
    (classes_defined t1).Nodup ∧
    List.Sorted strOrd (classes_defined t1) ∧
    (functions_defined t1 parents1).Nodup ∧
    List.Sorted strOrd (functions_defined t1 parents1) :=
  ⟨sortedStringSet_congr himp, sortedStringSet_congr hcls,
   sortedStringSet_congr hfun,
   sortedStringSet_nodup _, sortedStringSet_sorted _,
   sortedStringSet_nodup _, sortedStringSet_sorted _,
   sortedStringSet_nodup _, sortedStringSet_sorted _⟩

/-- C6 counterexample: for `import b; import a; import b`, assignment 1's
packages list is neither deduplicated nor sorted, while assignment 2
produces the sorted set. -/
theorem C6_counterexample :
    A1.a1_packages dupTree = [some "b", some "a", some "b"] ∧
    packages_imported dupTree = ["a", "b"] := by decide

/-- C6 witness: two modules with the same import names in different order
and multiplicity produce identical assignment 2 inventory. -/
theorem C6_witness :
    (importNameList dupTree).toFinset = (importNameList dupTree2).toFinset ∧
    packages_imported dupTree = packages_imported dupTree2 := by
  have h1 : (importNameList dupTree).toFinset =
      (importNameList dupTree2).toFinset := by decide
  have h2 : (classNameList dupTree).toFinset =
      (classNameList dupTree2).toFinset := by decide
  have h3 : (functionNameList dupTree (getParent dupTree)).toFinset =
      (functionNameList dupTree2 (getParent dupTree2)).toFinset := by decide
  exact ⟨h1, (C6_inventory_deterministic dupTree dupTree2 _ _ h1 h2 h3).1⟩

end Checker

namespace Checker

/-- C7 (amended): the documentation auditor yields exactly one entry per
class/function node — pairing the qualified name with the docstring when
present and non-empty, otherwise the explicit `DocString not found.`
marker — but in breadth-first `ast.walk` order, not tree pre-order (see
the counterexample). -/
theorem C7_docstring_entries (t : Node) (parents : Node → Option Node) :
    docstring_entries t parents =
      ((walk t).filter isDefNode).map
        (fun n => qualifiedDocName parents n ++ ": " ++ docPayload n) ∧
    (docstring_entries t parents).length =
      ((walk t).filter isDefNode).length ∧
    ∀ n ∈ walk t, isDefNode n = true →
      (qualifiedDocName parents n ++ ": " ++ docPayload n) ∈
        docstring_entries t parents := by
  have hmap : docstring_entries t parents =
      ((walk t).filter isDefNode).map
        (fun n => qualifiedDocName parents n ++ ": " ++ docPayload n) := by
    unfold docstring_entries
    exact List.map_congr_left fun n _ => fmtEntry_eq parents n
  refine ⟨hmap, ?_, ?_⟩
  · rw [hmap, List.length_map]
  · intro n hn hd
    rw [hmap]
    exact List.mem_map_of_mem _ (List.mem_filter.mpr ⟨hn, hd⟩)

/-- C7 counterexample: on `class A: def m(x)` followed by `def b(x)`, the
entries come in breadth-first order `A, b, A.m`, not the pre-order
`A, A.m, b` the claim asserts. -/
theorem C7_counterexample :
    docstring_entries preTree (getParent preTree) =
      ["A: DocString not found.", "b: DocString not found.",
       "A.m: DocString not found."] ∧
    ((preorderNode preTree).filter isDefNode).map
        (fmtEntry (getParent preTree)) =
      ["A: DocString not found.", "A.m: DocString not found.",
       "b: DocString not found."] ∧
    docstring_entries preTree (getParent preTree) ≠
      ((preorderNode preTree).filter isDefNode).map
        (fmtEntry (getParent preTree)) := by decide

/-- C7 witness: the sample scenario's `baz` has docstring `doc`, and its
entry `baz: doc` is produced. -/
theorem C7_witness :
    isDefNode sampleBaz = true ∧
    "baz: doc" ∈ docstring_entries sampleTree sampleParents := by
  refine ⟨by decide, ?_⟩
  have h := (C7_docstring_entries sampleTree sampleParents).2.2 sampleBaz
    (by decide) (by decide)
  have he : qualifiedDocName sampleParents sampleBaz ++ ": " ++
      docPayload sampleBaz = "baz: doc" := by decide
  rwa [he] at h

/-- C2 (amended, assignment 2): for a function node whose parent (per the
parent map) is a class, the documentation, annotation and naming auditors
of `functional_style_checker.py` all refer to it by the same
`Class.function` qualified name.  (Assignment 1 uses `Class_function` for
documentation and the bare name for annotations and naming — see the
counterexample.) -/
theorem C2_methods_qualified (t : Node) (parents : Node → Option Node)
    (fname cname : String) (args : Arguments) (ret : Option String)
    (body cbody : List Node)
    (hmem : Node.functionDef fname args ret body ∈ walk t)
    (hpar : parents (Node.functionDef fname args ret body) =
      some (Node.classDef cname cbody)) :
    (cname ++ "." ++ fname ++ ": " ++
        docPayload (Node.functionDef fname args ret body)) ∈
      docstring_entries t parents ∧
    (incomplete args ret = true →
      (cname ++ "." ++ fname) ∈ missing_type_annotations t parents) ∧
    (_violates_snake fname = true →
      (cname ++ "." ++ fname) ∈ (naming_violations t parents).2) := by
  have hm : is_method (Node.functionDef fname args ret body) parents
      = true := by
    unfold is_method
    rw [hpar]
  have hq : qualNameOf parents (Node.functionDef fname args ret body) =
      cname ++ "." ++ fname := by
    unfold qualNameOf
    rw [if_pos hm, hpar]
    rfl
  have hqd : qualifiedDocName parents (Node.functionDef fname args ret body)
      = cname ++ "." ++ fname := by
    unfold qualifiedDocName
    rw [if_pos (by rw [hm]; rfl), hpar]
    rfl
  refine ⟨?_, ?_, ?_⟩
  · have hmm : fmtEntry parents (Node.functionDef fname args ret body) =
        cname ++ "." ++ fname ++ ": " ++
          docPayload (Node.functionDef fname args ret body) := by
      rw [fmtEntry_eq, hqd]
    unfold docstring_entries
    rw [← hmm]
    exact List.mem_map_of_mem _ (List.mem_filter.mpr ⟨hmem, rfl⟩)
  · intro hinc
    exact mem_missing_type_annotations.mpr
      ⟨fname, args, ret, body, hmem, hinc, hq⟩
  · intro hv
    show _ ∈ sortedStringSet (badFuncList t parents)
    rw [mem_sortedStringSet]
    exact mem_badFuncList.mpr ⟨fname, args, ret, body, hmem, hv, hq⟩

/-- C2 counterexample: on the sample module, assignment 1's documentation
auditor writes `Foo_bar` (underscore form) while its annotation auditor
writes the bare `bar`; the qualified `Foo.bar` appears in neither, so the
three findings do not share the `Class.function` name there. -/
theorem C2_counterexample :
    A1.a1_docstring_lines sampleTree (A1.parentAttr sampleTree) =
      ["Foo DocString not found.\n", "baz DocString: doc\n",
       "Foo_bar DocString not found.\n"] ∧
    A1.a1_missing_annotations sampleTree = ["bar", "bar"] ∧
    "Foo.bar" ∉ A1.a1_missing_annotations sampleTree := by decide

/-- C2 witness: for the sample module's method `bar` of `Foo`, the
documentation entry and the annotation finding both use `Foo.bar`. -/
theorem C2_witness :
    "Foo.bar: DocString not found." ∈
      docstring_entries sampleTree sampleParents ∧
    "Foo.bar" ∈ missing_type_annotations sampleTree sampleParents := by
  have h := C2_methods_qualified sampleTree sampleParents "bar" "Foo"
    ⟨[⟨"x", none⟩], none, none⟩ none [.otherStmt []] [sampleBar]
    (by decide) (by decide)
  refine ⟨?_, h.2.1 (by decide)⟩
  have he : ("Foo" ++ "." ++ "bar" ++ ": " ++
      docPayload (Node.functionDef "bar" ⟨[⟨"x", none⟩], none, none⟩ none
        [.otherStmt []])) = "Foo.bar: DocString not found." := by decide
  rw [← he]
  exact h.1

/-- C5: on a well-formed tree (distinct node identities along the walk),
the parent map is total: the root is bound to the `None` sentinel (and in
assignment 1 the root's `parent` attribute is never written), and every
other node is bound, by both implementations, to its unique immediate
parent. -/
theorem C5_parent_map_total (t : Node) (h : (walk t).Nodup) :
    build_parent_map t t = some none ∧
    A1.parentAttr t t = none ∧
    ∀ n ∈ walk t, n ≠ t →
      ∃ p, p ∈ walk t ∧ n ∈ iter_child_nodes p ∧
        build_parent_map t n = some (some p) ∧
        A1.parentAttr t n = some p ∧
        ∀ q ∈ walk t, n ∈ iter_child_nodes q → q = p :=
  ⟨build_parent_map_root t, parentAttr_root t h,
   fun n hn hne => build_parent_map_child t h n hn hne⟩

/-- C5 witness: the sample module's walk is duplicate-free; the root maps
to the sentinel and the method `bar` maps to its class `Foo`. -/
theorem C5_witness :
    (walk sampleTree).Nodup ∧
    build_parent_map sampleTree sampleTree = some none ∧
    build_parent_map sampleTree sampleBar = some (some sampleFoo) := by
  refine ⟨by decide, ?_, by decide⟩
  exact (C5_parent_map_total sampleTree (by decide)).1

end Checker
